import Mathlib

/-!
Verification of the JOS kernel monitor (kern/monitor.c).

This file gives a shallow embedding of the monitor: the hex argument
parser `xtoi`, the tokenizer and dispatcher `runcmd` over the static
`commands` table, the stack walker `mon_backtrace`, and the page-table
commands `showmappings` (showmp), `setm` (setperm) and `showvm`.

Modelling conventions:
- C strings (char arrays) are lists of byte values (`List Nat`, each
  byte < 256 on real inputs; ASCII throughout the monitor's domain).
  The embedding treats `char` as an unsigned byte value; every input
  the monitor is specified on is ASCII, where signedness is irrelevant.
- 32-bit unsigned arithmetic is `Nat` arithmetic taken `% 2^32` exactly
  where the C code can wrap.
- The external memory manager (kern/pmap.c, outside this module) is an
  oracle `walk : Nat -> Option Nat` mapping a virtual address to the
  location of its page-table entry, `none` meaning `pgdir_walk` with
  allocate=1 failed and returned NULL.  Page-table entry storage is a
  map `Store` from locations to 32-bit entry values; mutation by the
  monitor is explicit state passing.
- The external symbol resolver `debuginfo_eip` (kern/kdebug.c) is an
  oracle `resolve : Nat -> SymInfo`; kernel word memory is an oracle
  `mem : Nat -> Nat` giving the 32-bit word at a byte address.
- Console output is reified as a list of `Out` events; a command
  handler's run ends in `Exec.ok status store out` (the C `return`),
  `Exec.panicked msg out` (the `panic` call in showmappings), or
  `Exec.fault out` (a dereference of the NULL entry reference, which
  setm performs without any check).  Loops that the C code does not
  bound (the showmappings range loop, the backtrace walk) take fuel
  and return `none` when it runs out.
-/

namespace Kmonitor

/-- Byte string: the contents of a C `char` buffer (NUL-free). -/
abbrev CStr := List Nat

/-- Helper turning a Lean string literal into its ASCII byte list. -/
def str (s : String) : CStr := s.toList.map Char.toNat

/-- The 32-bit modulus. -/
def U32 : Nat := 2 ^ 32

/-- PGSIZE from inc/mmu.h. -/
def PGSIZE : Nat := 4096

/-- PTE_P (present) permission bit. -/
def PTE_P : Nat := 1

/-- PTE_W (writable) permission bit. -/
def PTE_W : Nat := 2

/-- PTE_U (user) permission bit. -/
def PTE_U : Nat := 4

/-- MAXARGS from monitor.c. -/
def MAXARGS : Nat := 16

/-- Page-table entry storage owned by the memory manager: location to
32-bit entry value. -/
abbrev Store := Nat → Nat

/-- struct Eipdebuginfo, as filled in by the external resolver. -/
structure SymInfo where
  eip_file : CStr
  eip_line : Nat
  eip_fn_name : CStr
  eip_fn_namelen : Nat
  eip_fn_addr : Nat
deriving DecidableEq

/-- The external world the monitor runs against: the memory manager
lookup (`pgdir_walk kern_pgdir · 1`, `none` = allocation failure /
NULL), word memory reads, the current frame reference (`read_ebp`),
and the symbol resolver (`debuginfo_eip`). -/
structure Machine where
  walk : Nat → Option Nat
  mem : Nat → Nat
  ebp : Nat
  resolve : Nat → SymInfo

/-- One console output event (one cprintf of monitor.c, with the
values it prints). -/
inductive Out where
  | helpLine (name desc : CStr)
  | kerninfoReport
  | btHeader
  | btFrame (ebp eip a1 a2 a3 a4 a5 : Nat)
  | btInfo (file : CStr) (line : Nat) (fn : CStr) (off : Nat)
  | tooManyArgs
  | unknownCmd (name : CStr)
  | usageShowmp
  | usageSetm
  | usageShowvm
  | rangeHeader (b e : Nat)
  | pageInfo (a p w u : Nat)
  | pageNotExist (a : Nat)
  | permHeader (a : Nat) (before : Bool)
  | pteBits (p w u : Nat)
  | vmWord (a v : Nat)
deriving DecidableEq

/-- How one command handler invocation ends. -/
inductive Exec where
  | ok (status : Int) (s : Store) (out : List Out)
  | panicked (msg : CStr) (out : List Out)
  | fault (out : List Out)

/-- Whether an execution ended in a kernel panic. -/
def isPanic : Exec → Bool
  | .panicked _ _ => true
  | _ => false

/-- Whether an execution ended in a NULL dereference. -/
def isFault : Exec → Bool
  | .fault _ => true
  | _ => false

/-! ## Hex Parser (xtoi, monitor.c lines 150-161) -/

/-- The in-place normalization xtoi applies to each character:
`if (*buf >= 'a') *buf = *buf - 'a' + '0' + 10;` (97 = 'a', and
subtracting 'a' then adding '0' + 10 is subtracting 39). -/
def normChar (b : Nat) : Nat := if 97 ≤ b then b - 39 else b

/-- One step of xtoi's accumulation: `res = res * 16 + *buf - '0'` in
uint32 arithmetic (48 = '0'; the C subtraction wraps mod 2^32, written
here as adding `U32 - 48`). -/
def xtoiStep (res b : Nat) : Nat := (res * 16 % U32 + normChar b + (U32 - 48)) % U32

/-- The accumulation loop of xtoi over the digit bytes. -/
def xtoiAcc (ds : CStr) (res : Nat) : Nat := ds.foldl xtoiStep res

/-- xtoi: skips the two-character `0x` lead-in (`buf += 2`), then
parses the rest, normalizing letters in place.  Returns the parsed
uint32 value together with the buffer contents after the call (the
first two bytes untouched, the rest overwritten by `normChar`). -/
def xtoi (s : CStr) : Nat × CStr :=
  (xtoiAcc (s.drop 2) 0, s.take 2 ++ (s.drop 2).map normChar)

/-! ## Tokenizer (runcmd parsing loop, monitor.c lines 98-117) -/

/-- WHITESPACE "\t\r\n " as byte values 9, 13, 10, 32. -/
def isWhite (b : Nat) : Bool := b == 9 || b == 13 || b == 10 || b == 32

/-- Worker for `tokenize`: scans the buffer byte by byte carrying the
(reversed) current token. -/
def tokenizeGo : List Nat → List Nat → List CStr
  | [], cur => if cur.isEmpty then [] else [cur.reverse]
  | b :: rest, cur =>
    if isWhite b then
      if cur.isEmpty then tokenizeGo rest [] else cur.reverse :: tokenizeGo rest []
    else tokenizeGo rest (b :: cur)

/-- The tokens of a command buffer: maximal runs of non-whitespace
bytes, the scan stopping at the first NUL byte exactly as the C
parsing loop does. -/
def tokenize (buf : CStr) : List CStr :=
  tokenizeGo (buf.takeWhile (fun b => b ≠ 0)) []

/-! ## Command handlers -/

/-- Reading the first byte of an argument token (`argv[i][0]`); an
empty token reads its NUL terminator, byte 0. -/
def headC (l : CStr) : Nat := l.headD 0

/-- The (name, description) rows of the static command table, used by
mon_help's printing loop. -/
def cmdSpecs : List (CStr × CStr) :=
  [(str ("help"), str ("Display this list of commands")),
   (str ("kerninfo"), str ("Display information about the kernel")),
   (str ("backtrace"), str ("Call mon_backtrace")),
   (str ("showmp"), str ("Display mapping from vm to pm")),
   (str ("setperm"), str ("Set permission")),
   (str ("showvm"), str ("Display virtual memory"))]

/-- The lines mon_help prints: one per command table row. -/
def helpOut : List Out := cmdSpecs.map (fun pr => Out.helpLine pr.1 pr.2)

/-- mon_help: prints every table row, returns 0. -/
def mon_help (_argv : List CStr) (_tf : Option Nat) (_M : Machine) (S : Store)
    (_fuel : Nat) : Option Exec :=
  some (Exec.ok 0 S helpOut)

/-- mon_kerninfo: prints the kernel symbol report (the external linker
symbols it formats are outside this module), returns 0. -/
def mon_kerninfo (_argv : List CStr) (_tf : Option Nat) (_M : Machine) (S : Store)
    (_fuel : Nat) : Option Exec :=
  some (Exec.ok 0 S [Out.kerninfoReport])

/-- The two lines mon_backtrace prints for the frame at reference p:
the frame pointer, the return address word at byte offset 4, the five
words after it, and the resolved symbol info with the name truncated
to eip_fn_namelen and the offset eip - eip_fn_addr (uint32 wrap). -/
def frameOut (M : Machine) (p : Nat) : List Out :=
  let eip := M.mem (p + 4)
  let info := M.resolve eip
  [Out.btFrame p eip (M.mem (p + 8)) (M.mem (p + 12)) (M.mem (p + 16))
     (M.mem (p + 20)) (M.mem (p + 24)),
   Out.btInfo info.eip_file info.eip_line (info.eip_fn_name.take info.eip_fn_namelen)
     ((eip + (U32 - info.eip_fn_addr % U32)) % U32)]

/-- The backtrace loop `while (p) { ...; p = *(uint32_t*)(*p); }`,
with fuel for the unbounded walk. -/
def btLoop (M : Machine) : Nat → Nat → List Out → Option (List Out)
  | 0, p, acc => if p = 0 then some acc else none
  | fuel + 1, p, acc =>
    if p = 0 then some acc
    else btLoop M fuel (M.mem p) (acc ++ frameOut M p)

/-- mon_backtrace: walks the saved frame-pointer chain from read_ebp
until the zero sentinel, returns 0. -/
def mon_backtrace (_argv : List CStr) (_tf : Option Nat) (M : Machine) (S : Store)
    (fuel : Nat) : Option Exec :=
  match btLoop M fuel M.ebp [Out.btHeader] with
  | some out => some (Exec.ok 0 S out)
  | none => none

/-- The showmappings range loop
`for (; begin <= end; begin += PGSIZE)` in uint32 arithmetic: each
iteration looks the page up with allocate=1 and panics
("out of memory") if the lookup returns NULL, else prints the entry's
P/W/U bits when present or a not-exist line.  Fuel bounds the
unbounded loop. -/
def showmpLoop (M : Machine) (S : Store) : Nat → Nat → Nat → List Out → Option Exec
  | 0, _, _, _ => none
  | fuel + 1, b, e, acc =>
    if b ≤ e then
      match M.walk b with
      | none => some (Exec.panicked (str ("out of memory")) acc)
      | some loc =>
        let v := S loc
        let acc' := acc ++ (if v &&& PTE_P ≠ 0 then
            [Out.pageInfo b (v &&& PTE_P) (v &&& PTE_W) (v &&& PTE_U)]
          else [Out.pageNotExist b])
        showmpLoop M S fuel ((b + PGSIZE) % U32) e acc'
    else some (Exec.ok 0 S acc)

/-- showmappings (command showmp): usage check, hex-parse the two
bounds, run the range loop. -/
def showmappings (argv : List CStr) (_tf : Option Nat) (M : Machine) (S : Store)
    (fuel : Nat) : Option Exec :=
  if argv.length ≠ 3 then some (Exec.ok 0 S [Out.usageShowmp])
  else
    let b := (xtoi (argv.getD 1 [])).1
    let e := (xtoi (argv.getD 2 [])).1
    showmpLoop M S fuel b e [Out.rangeHeader b e]

/-- setm (command setperm): usage check, hex-parse the address, look
the entry up with allocate=1 and dereference the result with no NULL
check (a failed lookup therefore faults inside myprint, after the
partial before-line was printed), print the before bits, decode the
selector byte (80 = P, 87 = W, 85 = U; anything else prints usage and
returns with no mutation), clear the selected bit iff the flag byte is
48 = 0 else set it, print the after bits, return 0. -/
def setm (argv : List CStr) (_tf : Option Nat) (M : Machine) (S : Store)
    (_fuel : Nat) : Option Exec :=
  if argv.length ≠ 4 then some (Exec.ok 0 S [Out.usageSetm])
  else
    let addr := (xtoi (argv.getD 1 [])).1
    match M.walk addr with
    | none => some (Exec.fault [Out.permHeader addr true])
    | some loc =>
      let old := S loc
      let out1 := [Out.permHeader addr true,
        Out.pteBits (old &&& PTE_P) (old &&& PTE_W) (old &&& PTE_U)]
      let sel := headC (argv.getD 3 [])
      let permOpt : Option Nat :=
        if sel = 80 then some PTE_P
        else if sel = 87 then some PTE_W
        else if sel = 85 then some PTE_U
        else none
      match permOpt with
      | none => some (Exec.ok 0 S (out1 ++ [Out.usageSetm]))
      | some perm =>
        let newv := if headC (argv.getD 2 []) = 48
          then old &&& ((U32 - 1) ^^^ perm) else old ||| perm
        let S' : Store := fun l => if l = loc then newv else S l
        some (Exec.ok 0 S' (out1 ++ [Out.permHeader addr false,
          Out.pteBits (newv &&& PTE_P) (newv &&& PTE_W) (newv &&& PTE_U)]))

/-- showvm: usage check, hex-parse address and count, print n
consecutive words (void* pointer arithmetic scales by 4 and wraps mod
2^32). -/
def showvm (argv : List CStr) (_tf : Option Nat) (M : Machine) (S : Store)
    (_fuel : Nat) : Option Exec :=
  if argv.length ≠ 3 then some (Exec.ok 0 S [Out.usageShowvm])
  else
    let a := (xtoi (argv.getD 1 [])).1
    let n := (xtoi (argv.getD 2 [])).1
    some (Exec.ok 0 S ((List.range n).map
      (fun i => Out.vmWord ((a + 4 * i) % U32) (M.mem ((a + 4 * i) % U32)))))

/-! ## Command Registry and Interpreter (monitor.c lines 23-147) -/

/-- struct Command: name, description, handler. -/
structure Command where
  name : CStr
  desc : CStr
  func : List CStr → Option Nat → Machine → Store → Nat → Option Exec

/-- The static commands[] table, in source order. -/
def commands : List Command :=
  [⟨str ("help"), str ("Display this list of commands"), mon_help⟩,
   ⟨str ("kerninfo"), str ("Display information about the kernel"), mon_kerninfo⟩,
   ⟨str ("backtrace"), str ("Call mon_backtrace"), mon_backtrace⟩,
   ⟨str ("showmp"), str ("Display mapping from vm to pm"), showmappings⟩,
   ⟨str ("setperm"), str ("Set permission"), setm⟩,
   ⟨str ("showvm"), str ("Display virtual memory"), showvm⟩]

/-- The lookup loop of runcmd: first entry whose name strcmp-equals
the first token. -/
def findCmd : List Command → CStr → Option Command
  | [], _ => none
  | c :: rest, n => if c.name = n then some c else findCmd rest n

/-- The dispatch half of runcmd, on an already-tokenized line:
zero tokens is a no-op returning 0; a known first token invokes that
entry's handler on the full argument vector and the trap-frame
reference and returns its result; an unknown one prints a diagnostic
and returns 0. -/
def runcmdTokens (tbl : List Command) (tf : Option Nat) (M : Machine) (S : Store)
    (toks : List CStr) (fuel : Nat) : Option Exec :=
  match toks with
  | [] => some (Exec.ok 0 S [])
  | t0 :: _ =>
    match findCmd tbl t0 with
    | some c => c.func toks tf M S fuel
    | none => some (Exec.ok 0 S [Out.unknownCmd t0])

/-- runcmd: tokenize the buffer; if a 16th token is found the line is
rejected with a diagnostic and 0 is returned without invoking any
handler; otherwise dispatch on the commands table. -/
def runcmd (tf : Option Nat) (M : Machine) (S : Store) (buf : CStr)
    (fuel : Nat) : Option Exec :=
  let toks := tokenize buf
  if MAXARGS - 1 < toks.length then some (Exec.ok 0 S [Out.tooManyArgs])
  else runcmdTokens commands tf M S toks fuel

/-- Result of running the monitor loop on a finite input script. -/
inductive LoopRes where
  | ranAll (s : Store) (out : List Out)
  | exited (s : Store) (out : List Out)
  | halted (out : List Out)

/-- The monitor while-loop, driven by a finite list of input lines:
each line goes through runcmd; a negative status breaks out of the
loop (`exited`), a panic or fault halts the system (`halted`), and an
exhausted script leaves the loop still waiting for input (`ranAll`). -/
def monitorLoop (M : Machine) (tf : Option Nat) :
    Store → List CStr → Nat → Option LoopRes
  | S, [], _ => some (.ranAll S [])
  | S, buf :: rest, fuel =>
    match runcmd tf M S buf fuel with
    | none => none
    | some (.ok s S' out) =>
      if s < 0 then some (.exited S' out)
      else
        match monitorLoop M tf S' rest fuel with
        | none => none
        | some (.ranAll S'' out') => some (.ranAll S'' (out ++ out'))
        | some (.exited S'' out') => some (.exited S'' (out ++ out'))
        | some (.halted out') => some (.halted (out ++ out'))
    | some (.panicked _ out) => some (.halted out)
    | some (.fault out) => some (.halted out)

/-! ## Hex formatting (external printf, modelled from the spec) -/

/-- Modelled from the spec: one digit of `%x` output, lowercase
(48 = ASCII 0, 87 + 10 = ASCII a).  The `%x` formatter itself lives in
the C library's printfmt code, which is not under src/. -/
def hexDigit (d : Nat) : Nat := if d < 10 then 48 + d else 87 + d

/-- Modelled from the spec: the digit string `%x` produces for a
value, lowercase 0-9a-f, most significant first, no leading zeros
(a single 0 digit for the value zero). -/
def hexChars (v : Nat) : List Nat :=
  if _h : v < 16 then [hexDigit v]
  else hexChars (v / 16) ++ [hexDigit (v % 16)]
termination_by v
decreasing_by exact Nat.div_lt_self (by omega) (by omega)

/-- Modelled from the spec: the full `0x%x` rendering of a value
(bytes 48 120 = "0x", then the hex digits). -/
def formatHex (v : Nat) : CStr := 48 :: 120 :: hexChars v

/-- The value xtoi's loop would compute with exact (unbounded)
arithmetic. -/
def hvAcc (ds : CStr) (a : Nat) : Nat :=
  ds.foldl (fun a b => a * 16 + (normChar b - 48)) a

/-! ## Concrete worlds used to instantiate theorems -/

/-- A concrete page-table entry store: every entry reads 5 (P and U
set, W clear). -/
def S0 : Store := fun _ => 5

/-- A concrete machine whose lookups always succeed at location 7. -/
def M0 : Machine := ⟨fun _ => some 7, fun _ => 0, 0, fun _ => ⟨[], 0, [], 0, 0⟩⟩

/-- A concrete machine whose lookups always fail (allocation failure:
pgdir_walk returns NULL). -/
def M1 : Machine := ⟨fun _ => none, fun _ => 0, 0, fun _ => ⟨[], 0, [], 0, 0⟩⟩

/-- A concrete machine carrying a two-frame ebp chain:
8 -> 40 -> 0 (word at byte address 8 is 40, word at 40 is 0). -/
def M2 : Machine :=
  ⟨fun _ => some 0, fun a => if a = 8 then 40 else if a = 40 then 0 else a, 8,
   fun _ => ⟨[], 0, [], 0, 0⟩⟩

/-- A concrete setperm argument vector requesting that P be set at
address 0x1000. -/
def argvP : List CStr := [str ("setperm"), str ("0x1000"), str ("1"), str ("P")]

/-- The saved frame-pointer chain: i links from the start reference,
each step reading the word the current reference points at. -/
def chainFrom (M : Machine) (p : Nat) : Nat → Nat
  | 0 => p
  | i + 1 => M.mem (chainFrom M p i)

/-! ## Theorems -/

/-- A list mapped to itself has every element fixed by the map. -/
theorem map_self_fixes {α : Type} {f : α → α} :
    ∀ {l : List α}, l.map f = l → ∀ x ∈ l, f x = x := by
  intro l
  induction l with
  | nil => intro _ x hx; cases hx
  | cons a t ih =>
    intro h x hx
    rw [List.map_cons, List.cons_eq_cons] at h
    rcases List.mem_cons.mp hx with hx' | hx'
    · exact hx' ▸ h.1
    · exact ih h.2 x hx'

/-- Claim C10: xtoi destructively normalizes its input token in place:
every byte at code point at least 97 in the portion after the two-byte
lead-in is overwritten with its value minus 39 (that is,
c - 'a' + '0' + 10), so the token no longer equals its original text
whenever that portion contained such a letter. -/
theorem xtoi_mutates_input (s : CStr) :
    (xtoi s).2 = s.take 2 ++ (s.drop 2).map normChar ∧
    ((∃ b ∈ s.drop 2, 97 ≤ b) → (xtoi s).2 ≠ s) := by
  refine ⟨rfl, ?_⟩
  rintro ⟨b, hb, hba⟩ heq
  have hsplit : s.take 2 ++ (s.drop 2).map normChar = s.take 2 ++ s.drop 2 := by
    calc s.take 2 ++ (s.drop 2).map normChar = (xtoi s).2 := rfl
    _ = s := heq
    _ = s.take 2 ++ s.drop 2 := (List.take_append_drop 2 s).symm
  have hmap : (s.drop 2).map normChar = s.drop 2 :=
    List.append_cancel_left hsplit
  have hfix : normChar b = b := map_self_fixes hmap b hb
  have : normChar b = b - 39 := by simp [normChar, hba]
  omega

/-- Witness for C10 at the concrete token 0xab. -/
theorem xtoi_mutates_input_witness :
    (∃ b ∈ (str ("0xab")).drop 2, 97 ≤ b) ∧ (xtoi (str ("0xab"))).2 ≠ str ("0xab") :=
  ⟨by decide, (xtoi_mutates_input (str ("0xab"))).2 (by decide)⟩

/-- Claim C6: a line tokenizing to more than MAXARGS - 1 = 15 tokens
is rejected by runcmd with the too-many-arguments diagnostic, the
store untouched and no handler invoked, returning status 0; a line of
at most 15 tokens passes tokenization and goes to dispatch with no
such rejection. -/
theorem runcmd_token_limit (tf : Option Nat) (M : Machine) (S : Store)
    (buf : CStr) (fuel : Nat) :
    (MAXARGS - 1 < (tokenize buf).length →
      runcmd tf M S buf fuel = some (Exec.ok 0 S [Out.tooManyArgs])) ∧
    ((tokenize buf).length ≤ MAXARGS - 1 →
      runcmd tf M S buf fuel = runcmdTokens commands tf M S (tokenize buf) fuel) := by
  constructor
  · intro h
    simp [runcmd, h]
  · intro h
    have : ¬ (MAXARGS - 1 < (tokenize buf).length) := by omega
    simp [runcmd, this]

/-- Witness for C6: a 16-token line is rejected, a 2-token line is
dispatched. -/
theorem runcmd_token_limit_witness :
    runcmd none M0 S0 (str ("a b c d e f g h i j k l m n o p")) 1 =
      some (Exec.ok 0 S0 [Out.tooManyArgs]) ∧
    runcmd none M0 S0 (str ("x y")) 1 =
      runcmdTokens commands none M0 S0 (tokenize (str ("x y"))) 1 :=
  ⟨(runcmd_token_limit none M0 S0 (str ("a b c d e f g h i j k l m n o p")) 1).1
      (by decide),
   (runcmd_token_limit none M0 S0 (str ("x y")) 1).2 (by decide)⟩

/-- The runcmd lookup loop finds exactly the first table entry whose
name equals the token. -/
theorem findCmd_first (tbl : List Command) (t0 : CStr) (i : Nat) (h : i < tbl.length)
    (hname : (tbl.get ⟨i, h⟩).name = t0)
    (hfirst : ∀ j (hj : j < i), (tbl.get ⟨j, Nat.lt_trans hj h⟩).name ≠ t0) :
    findCmd tbl t0 = some (tbl.get ⟨i, h⟩) := by
  induction tbl generalizing i with
  | nil => exact absurd h (by simp)
  | cons c rest ih =>
    cases i with
    | zero =>
      simp only [List.get] at hname ⊢
      simp [findCmd, hname]
    | succ i' =>
      have hc : c.name ≠ t0 := hfirst 0 (Nat.succ_pos i')
      have h' : i' < rest.length := by
        simpa using Nat.lt_of_succ_lt_succ h
      have := ih i' h' (by simpa using hname)
        (fun j hj => by simpa using hfirst (j + 1) (Nat.succ_lt_succ hj))
      simp only [findCmd, hc, if_neg hc, List.get]
      exact this

/-- Claim C2: for a tokenized line whose first token names a registry
entry, dispatch invokes exactly the first entry (in table order) whose
name is an exact match, passing the full argument vector and the
trap-frame reference and returning that handler's result, so a later
entry with the same name is never reached; and the same through runcmd
over the static commands table. -/
theorem runcmd_first_match :
    (∀ (tbl : List Command) (tf : Option Nat) (M : Machine) (S : Store)
        (t0 : CStr) (rest : List CStr) (fuel i : Nat) (h : i < tbl.length),
      (tbl.get ⟨i, h⟩).name = t0 →
      (∀ j (hj : j < i), (tbl.get ⟨j, Nat.lt_trans hj h⟩).name ≠ t0) →
      runcmdTokens tbl tf M S (t0 :: rest) fuel =
        (tbl.get ⟨i, h⟩).func (t0 :: rest) tf M S fuel) ∧
    (∀ (tf : Option Nat) (M : Machine) (S : Store) (buf : CStr) (fuel i : Nat)
        (h : i < commands.length),
      (tokenize buf).length ≤ MAXARGS - 1 →
      tokenize buf ≠ [] →
      (commands.get ⟨i, h⟩).name = (tokenize buf).headD [] →
      (∀ j (hj : j < i),
        (commands.get ⟨j, Nat.lt_trans hj h⟩).name ≠ (tokenize buf).headD []) →
      runcmd tf M S buf fuel =
        (commands.get ⟨i, h⟩).func (tokenize buf) tf M S fuel) := by
  have core : ∀ (tbl : List Command) (tf : Option Nat) (M : Machine) (S : Store)
      (t0 : CStr) (rest : List CStr) (fuel i : Nat) (h : i < tbl.length),
      (tbl.get ⟨i, h⟩).name = t0 →
      (∀ j (hj : j < i), (tbl.get ⟨j, Nat.lt_trans hj h⟩).name ≠ t0) →
      runcmdTokens tbl tf M S (t0 :: rest) fuel =
        (tbl.get ⟨i, h⟩).func (t0 :: rest) tf M S fuel := by
    intro tbl tf M S t0 rest fuel i h hname hfirst
    simp only [runcmdTokens, findCmd_first tbl t0 i h hname hfirst]
  refine ⟨core, ?_⟩
  intro tf M S buf fuel i h hlen hne hname hfirst
  rcases htoks : tokenize buf with _ | ⟨t0, rest⟩
  · exact absurd htoks hne
  · rw [htoks] at hname hfirst
    simp only [List.headD] at hname hfirst
    have hr : runcmd tf M S buf fuel = runcmdTokens commands tf M S (tokenize buf) fuel := by
      have hnl : ¬ (MAXARGS - 1 < (tokenize buf).length) := by omega
      simp [runcmd, hnl]
    rw [hr, htoks]
    exact core commands tf M S t0 rest fuel i h hname hfirst

/-- Witness for C2: dispatching the help line invokes mon_help, the
first (index 0) entry of the commands table. -/
theorem runcmd_first_match_witness :
    runcmd none M0 S0 (str ("help")) 1 =
      mon_help (tokenize (str ("help"))) none M0 S0 1 :=
  runcmd_first_match.2 none M0 S0 (str ("help")) 1 0 (by decide)
    (by decide) (by decide) (by decide)
    (fun j hj => absurd hj (Nat.not_lt_zero j))

/-- The exact accumulation only grows. -/
theorem hvAcc_le : ∀ (ds : CStr) (a : Nat), a ≤ hvAcc ds a := by
  intro ds
  induction ds with
  | nil => intro a; exact Nat.le_refl a
  | cons b rest ih =>
    intro a
    have h1 : a ≤ a * 16 + (normChar b - 48) := by omega
    exact Nat.le_trans h1 (ih (a * 16 + (normChar b - 48)))

/-- Normalizing a formatted hex digit gives ASCII 0 plus its value. -/
theorem normChar_hexDigit (d : Nat) (h : d < 16) : normChar (hexDigit d) = 48 + d := by
  simp only [normChar, hexDigit]
  split_ifs <;> omega

/-- Every byte of a formatted digit string is a formatted digit. -/
theorem hexChars_digits : ∀ (v : Nat), ∀ b ∈ hexChars v, ∃ d, d < 16 ∧ b = hexDigit d := by
  intro v
  induction v using Nat.strong_induction_on with
  | _ v ih =>
    intro b hb
    rw [hexChars] at hb
    by_cases hv : v < 16
    · rw [dif_pos hv] at hb
      rcases List.mem_singleton.mp hb with rfl
      exact ⟨v, hv, rfl⟩
    · rw [dif_neg hv] at hb
      rcases List.mem_append.mp hb with hb' | hb'
      · exact ih (v / 16) (Nat.div_lt_self (by omega) (by omega)) b hb'
      · rcases List.mem_singleton.mp hb' with rfl
        exact ⟨v % 16, Nat.mod_lt v (by omega), rfl⟩

/-- The exact accumulation over a formatted digit string recovers the
formatted value. -/
theorem hvAcc_hexChars : ∀ (v a : Nat),
    hvAcc (hexChars v) a = a * 16 ^ (hexChars v).length + v := by
  intro v
  induction v using Nat.strong_induction_on with
  | _ v ih =>
    intro a
    rw [hexChars]
    by_cases hv : v < 16
    · rw [dif_pos hv]
      simp only [hvAcc, List.foldl_cons, List.foldl_nil, List.length_singleton]
      rw [normChar_hexDigit v hv]
      omega
    · rw [dif_neg hv]
      have hlt : v / 16 < v := Nat.div_lt_self (by omega) (by omega)
      simp only [hvAcc, List.foldl_append, List.foldl_cons, List.foldl_nil,
        List.length_append, List.length_singleton]
      have h1 : (hexChars (v / 16)).foldl (fun a b => a * 16 + (normChar b - 48)) a =
          a * 16 ^ (hexChars (v / 16)).length + v / 16 := ih (v / 16) hlt a
      rw [h1, normChar_hexDigit (v % 16) (Nat.mod_lt v (by omega))]
      have h2 : 48 + v % 16 - 48 = v % 16 := by omega
      rw [h2, pow_succ]
      have h3 : v / 16 * 16 + v % 16 = v := by omega
      calc (a * 16 ^ (hexChars (v / 16)).length + v / 16) * 16 + v % 16
          = a * (16 ^ (hexChars (v / 16)).length * 16) + (v / 16 * 16 + v % 16) := by
            ring
        _ = a * (16 ^ (hexChars (v / 16)).length * 16) + v := by rw [h3]

/-- Under the 32-bit bound, xtoi's modular accumulation agrees with
the exact one. -/
theorem xtoiAcc_eq_hvAcc : ∀ (ds : CStr) (a : Nat),
    (∀ b ∈ ds, 48 ≤ normChar b ∧ normChar b < 64) →
    hvAcc ds a < U32 → xtoiAcc ds a = hvAcc ds a := by
  have hU : U32 = 4294967296 := by norm_num [U32]
  intro ds
  induction ds with
  | nil =>
    intro a _ _
    simp only [xtoiAcc, hvAcc, List.foldl_nil]
  | cons b rest ih =>
    intro a hdig hbound
    have hb : 48 ≤ normChar b ∧ normChar b < 64 := hdig b (List.mem_cons_self b rest)
    have hrest : ∀ x ∈ rest, 48 ≤ normChar x ∧ normChar x < 64 :=
      fun x hx => hdig x (List.mem_cons_of_mem b hx)
    have hv : hvAcc (b :: rest) a = hvAcc rest (a * 16 + (normChar b - 48)) := by
      simp only [hvAcc, List.foldl_cons]
    have hle : a * 16 + (normChar b - 48) ≤ hvAcc (b :: rest) a := by
      rw [hv]; exact hvAcc_le rest (a * 16 + (normChar b - 48))
    have ha16 : a * 16 < U32 := by omega
    have hstep : xtoiStep a b = a * 16 + (normChar b - 48) := by
      unfold xtoiStep
      rw [Nat.mod_eq_of_lt ha16]
      have h1 : a * 16 + normChar b + (U32 - 48) =
          (a * 16 + (normChar b - 48)) + U32 := by omega
      rw [h1, Nat.add_mod_right]
      exact Nat.mod_eq_of_lt (by omega)
    have hx : xtoiAcc (b :: rest) a = xtoiAcc rest (xtoiStep a b) := by
      simp only [xtoiAcc, List.foldl_cons]
    rw [hx, hstep, hv]
    exact ih (a * 16 + (normChar b - 48)) hrest (hv ▸ hbound)

/-- Claim C4: formatting an unsigned 32-bit value as `0x%x` (the
two-byte 0x lead-in followed by lowercase hex digits with no leading
zeros) and parsing the result back with xtoi reproduces the value. -/
theorem xtoi_roundtrip (v : Nat) (h : v < U32) : (xtoi (formatHex v)).1 = v := by
  have hdrop : (formatHex v).drop 2 = hexChars v := rfl
  have hx : (xtoi (formatHex v)).1 = xtoiAcc (hexChars v) 0 := by
    simp only [xtoi, hdrop]
  rw [hx]
  have hdig : ∀ b ∈ hexChars v, 48 ≤ normChar b ∧ normChar b < 64 := by
    intro b hb
    rcases hexChars_digits v b hb with ⟨d, hd, rfl⟩
    rw [normChar_hexDigit d hd]
    omega
  have hval : hvAcc (hexChars v) 0 = v := by
    rw [hvAcc_hexChars v 0]
    simp
  rw [xtoiAcc_eq_hvAcc (hexChars v) 0 hdig (by rw [hval]; exact h), hval]

/-- Witness for C4 at the value 0xbeef. -/
theorem xtoi_roundtrip_witness : 48879 < U32 ∧ (xtoi (formatHex 48879)).1 = 48879 :=
  ⟨by norm_num [U32], xtoi_roundtrip 48879 (by norm_num [U32])⟩

/-- Setting a single power-of-two bit changes exactly that bit. -/
theorem testBit_set_pow (old idx i : Nat) :
    (old ||| 2 ^ idx).testBit i = if i = idx then true else old.testBit i := by
  rw [Nat.testBit_or, Nat.testBit_two_pow]
  by_cases h : i = idx
  · subst h; simp
  · have hne : idx ≠ i := fun hh => h hh.symm
    simp [h, hne]

/-- Clearing a single power-of-two bit with a 32-bit complement mask
changes exactly that bit of a 32-bit value. -/
theorem testBit_clear_pow (old idx i : Nat) (hidx : idx < 32) (hold : old < U32) :
    (old &&& ((U32 - 1) ^^^ 2 ^ idx)).testBit i =
      if i = idx then false else old.testBit i := by
  have hU : U32 = 2 ^ 32 := rfl
  rw [Nat.testBit_and, Nat.testBit_xor, hU, Nat.testBit_two_pow_sub_one,
    Nat.testBit_two_pow]
  by_cases h : i = idx
  · subst h; simp [hidx]
  · have hne : idx ≠ i := fun hh => h hh.symm
    by_cases hlt : i < 32
    · simp [h, hne, hlt]
    · have hzero : old.testBit i = false :=
        Nat.testBit_lt_two_pow (lt_of_lt_of_le (hU ▸ hold)
          (Nat.pow_le_pow_right (by norm_num) (by omega)))
      simp [h, hne, hlt, hzero]

/-- Claim C1 (amended): when the lookup-with-allocate fails, the
showmp range loop panics out of the monitor; setperm, by contrast,
performs no failure check and dereferences the NULL entry reference
(a fault, after only the partial before-line was printed), so it never
reaches a controlled panic, and in neither case is an error status
returned to the Interpreter. -/
theorem walkfail_panic_vs_fault :
    (∀ (M : Machine) (S : Store) (fuel b e : Nat) (acc : List Out),
      M.walk b = none → b ≤ e →
      showmpLoop M S (fuel + 1) b e acc =
        some (Exec.panicked (str ("out of memory")) acc)) ∧
    (∀ (M : Machine) (S : Store) (tf : Option Nat) (argv : List CStr) (fuel : Nat),
      argv.length = 4 → M.walk (xtoi (argv.getD 1 [])).1 = none →
      setm argv tf M S fuel =
        some (Exec.fault [Out.permHeader (xtoi (argv.getD 1 [])).1 true])) := by
  constructor
  · intro M S fuel b e acc hwn hble
    simp only [showmpLoop, if_pos hble, hwn]
  · intro M S tf argv fuel h4 hwn
    simp only [setm, h4, hwn]
    simp

/-- Witness for the amended C1 at concrete inputs where every lookup
fails. -/
theorem walkfail_panic_vs_fault_witness :
    showmpLoop M1 S0 1 0 5 [] = some (Exec.panicked (str ("out of memory")) []) ∧
    setm argvP none M1 S0 1 =
      some (Exec.fault [Out.permHeader (xtoi (argvP.getD 1 [])).1 true]) :=
  ⟨walkfail_panic_vs_fault.1 M1 S0 0 0 5 [] rfl (by decide),
   walkfail_panic_vs_fault.2 M1 S0 none argvP 1 (by decide) rfl⟩

/-- Counterexample to C1 as stated: at a concrete setperm invocation
whose lookup fails, the execution ends in a NULL-dereference fault,
not in a panic. -/
theorem setperm_nullwalk_not_panic_cex :
    M1.walk (xtoi (argvP.getD 1 [])).1 = none ∧
    (setm argvP none M1 S0 1).map isPanic = some false ∧
    (setm argvP none M1 S0 1).map isFault = some true := by
  refine ⟨rfl, ?_, ?_⟩ <;> decide

/-- Claim C7: setperm with four arguments and an unrecognized selector
byte (not P, W, U) prints the usage message and returns status 0 with
the store unchanged: the entry's value after the call is its value
before the call. -/
theorem setperm_bad_selector (M : Machine) (S : Store) (tf : Option Nat)
    (argv : List CStr) (fuel loc : Nat)
    (h4 : argv.length = 4)
    (hw : M.walk (xtoi (argv.getD 1 [])).1 = some loc)
    (hs1 : headC (argv.getD 3 []) ≠ 80)
    (hs2 : headC (argv.getD 3 []) ≠ 87)
    (hs3 : headC (argv.getD 3 []) ≠ 85) :
    setm argv tf M S fuel = some (Exec.ok 0 S
      [Out.permHeader (xtoi (argv.getD 1 [])).1 true,
       Out.pteBits (S loc &&& PTE_P) (S loc &&& PTE_W) (S loc &&& PTE_U),
       Out.usageSetm]) := by
  simp only [setm, h4, hw]
  simp only [List.getD_eq_getElem?_getD] at hs1 hs2 hs3
  simp [hs1, hs2, hs3]

/-- Witness for C7 at a selector byte X = 88. -/
theorem setperm_bad_selector_witness :
    setm [str ("setperm"), str ("0x1000"), str ("1"), str ("X")] none M0 S0 1 =
      some (Exec.ok 0 S0
        [Out.permHeader (xtoi ([str ("setperm"), str ("0x1000"), str ("1"),
            str ("X")].getD 1 [])).1 true,
         Out.pteBits (S0 7 &&& PTE_P) (S0 7 &&& PTE_W) (S0 7 &&& PTE_U),
         Out.usageSetm]) :=
  setperm_bad_selector M0 S0 none
    [str ("setperm"), str ("0x1000"), str ("1"), str ("X")] 1 7
    (by decide) rfl (by decide) (by decide) (by decide)

/-- Claim C3: setperm with a recognized selector mutates exactly the
selected permission bit of the entry: the clear flag byte 0 clears it
and any other flag byte sets it, every other bit of the 32-bit entry
(the other two permission bits and the frame address bits) is
unchanged, every other store location is unchanged, and the before and
after print events show the P/W/U masks of exactly the old and new
entry values. -/
theorem setperm_single_bit (M : Machine) (S : Store) (tf : Option Nat)
    (argv : List CStr) (fuel loc idx : Nat)
    (h4 : argv.length = 4)
    (hw : M.walk (xtoi (argv.getD 1 [])).1 = some loc)
    (hold : S loc < U32)
    (hsel : (headC (argv.getD 3 []) = 80 ∧ idx = 0) ∨
      (headC (argv.getD 3 []) = 87 ∧ idx = 1) ∨
      (headC (argv.getD 3 []) = 85 ∧ idx = 2)) :
    ∃ newv,
      setm argv tf M S fuel = some (Exec.ok 0
        (fun l => if l = loc then newv else S l)
        [Out.permHeader (xtoi (argv.getD 1 [])).1 true,
         Out.pteBits (S loc &&& PTE_P) (S loc &&& PTE_W) (S loc &&& PTE_U),
         Out.permHeader (xtoi (argv.getD 1 [])).1 false,
         Out.pteBits (newv &&& PTE_P) (newv &&& PTE_W) (newv &&& PTE_U)]) ∧
      newv.testBit idx = (if headC (argv.getD 2 []) = 48 then false else true) ∧
      (∀ i, i ≠ idx → newv.testBit i = (S loc).testBit i) := by
  have hP : PTE_P = 2 ^ 0 := by norm_num [PTE_P]
  have hW : PTE_W = 2 ^ 1 := by norm_num [PTE_W]
  have hU : PTE_U = 2 ^ 2 := by norm_num [PTE_U]
  simp only [List.getD_eq_getElem?_getD] at hsel
  rcases hsel with ⟨hs, hidx⟩ | ⟨hs, hidx⟩ | ⟨hs, hidx⟩ <;> subst hidx
  · refine ⟨if headC (argv.getD 2 []) = 48
        then S loc &&& ((U32 - 1) ^^^ PTE_P) else S loc ||| PTE_P, ?_, ?_, ?_⟩
    · simp only [setm, h4, hw]
      simp [hs]
    · by_cases hf : headC (argv.getD 2 []) = 48
      · simp only [if_pos hf, hP]
        rw [testBit_clear_pow (S loc) 0 0 (by norm_num) hold]
        simp
      · simp only [if_neg hf, hP]
        rw [testBit_set_pow (S loc) 0 0]
        simp
    · intro i hi
      by_cases hf : headC (argv.getD 2 []) = 48
      · simp only [if_pos hf, hP]
        rw [testBit_clear_pow (S loc) 0 i (by norm_num) hold]
        simp [hi]
      · simp only [if_neg hf, hP]
        rw [testBit_set_pow (S loc) 0 i]
        simp [hi]
  · refine ⟨if headC (argv.getD 2 []) = 48
        then S loc &&& ((U32 - 1) ^^^ PTE_W) else S loc ||| PTE_W, ?_, ?_, ?_⟩
    · simp only [setm, h4, hw]
      simp [hs]
    · by_cases hf : headC (argv.getD 2 []) = 48
      · simp only [if_pos hf, hW]
        rw [testBit_clear_pow (S loc) 1 1 (by norm_num) hold]
        simp
      · simp only [if_neg hf, hW]
        rw [testBit_set_pow (S loc) 1 1]
        simp
    · intro i hi
      by_cases hf : headC (argv.getD 2 []) = 48
      · simp only [if_pos hf, hW]
        rw [testBit_clear_pow (S loc) 1 i (by norm_num) hold]
        simp [hi]
      · simp only [if_neg hf, hW]
        rw [testBit_set_pow (S loc) 1 i]
        simp [hi]
  · refine ⟨if headC (argv.getD 2 []) = 48
        then S loc &&& ((U32 - 1) ^^^ PTE_U) else S loc ||| PTE_U, ?_, ?_, ?_⟩
    · simp only [setm, h4, hw]
      simp [hs]
    · by_cases hf : headC (argv.getD 2 []) = 48
      · simp only [if_pos hf, hU]
        rw [testBit_clear_pow (S loc) 2 2 (by norm_num) hold]
        simp
      · simp only [if_neg hf, hU]
        rw [testBit_set_pow (S loc) 2 2]
        simp
    · intro i hi
      by_cases hf : headC (argv.getD 2 []) = 48
      · simp only [if_pos hf, hU]
        rw [testBit_clear_pow (S loc) 2 i (by norm_num) hold]
        simp [hi]
      · simp only [if_neg hf, hU]
        rw [testBit_set_pow (S loc) 2 i]
        simp [hi]

/-- Witness for C3: setting W at a concrete entry that had P and U set
and W clear. -/
theorem setperm_single_bit_witness :
    ∃ newv,
      setm [str ("setperm"), str ("0x1000"), str ("1"), str ("W")] none M0 S0 1 =
        some (Exec.ok 0 (fun l => if l = 7 then newv else S0 l)
          [Out.permHeader (xtoi ([str ("setperm"), str ("0x1000"), str ("1"),
              str ("W")].getD 1 [])).1 true,
           Out.pteBits (S0 7 &&& PTE_P) (S0 7 &&& PTE_W) (S0 7 &&& PTE_U),
           Out.permHeader (xtoi ([str ("setperm"), str ("0x1000"), str ("1"),
              str ("W")].getD 1 [])).1 false,
           Out.pteBits (newv &&& PTE_P) (newv &&& PTE_W) (newv &&& PTE_U)]) ∧
      newv.testBit 1 = (if headC ([str ("setperm"), str ("0x1000"), str ("1"),
          str ("W")].getD 2 []) = 48 then false else true) ∧
      (∀ i, i ≠ 1 → newv.testBit i = (S0 7).testBit i) :=
  setperm_single_bit M0 S0 none
    [str ("setperm"), str ("0x1000"), str ("1"), str ("W")] 1 7 1
    (by decide) rfl (by decide) (Or.inr (Or.inl ⟨by decide, rfl⟩))

/-- Shifting the start of a frame chain by one link. -/
theorem chainFrom_shift (M : Machine) (p : Nat) :
    ∀ i, chainFrom M (M.mem p) i = chainFrom M p (i + 1) := by
  intro i
  induction i with
  | zero => rfl
  | succ i ih =>
    show M.mem (chainFrom M (M.mem p) i) = M.mem (chainFrom M p (i + 1))
    rw [ih]

/-- The backtrace loop on a chain of k nonzero references ending at
the zero sentinel emits exactly the k frame reports, in chain order,
within any fuel of at least k. -/
theorem btLoop_chain (M : Machine) : ∀ (k fuel p : Nat) (acc : List Out),
    k ≤ fuel →
    (∀ i < k, chainFrom M p i ≠ 0) →
    chainFrom M p k = 0 →
    btLoop M fuel p acc =
      some (acc ++ ((List.range k).map (fun i => frameOut M (chainFrom M p i))).flatten) := by
  intro k
  induction k with
  | zero =>
    intro fuel p acc _ _ hz
    have hp : p = 0 := hz
    subst hp
    cases fuel with
    | zero => simp [btLoop]
    | succ f => simp [btLoop]
  | succ k ih =>
    intro fuel p acc hfuel hnz hz
    have hp : p ≠ 0 := hnz 0 (Nat.succ_pos k)
    cases fuel with
    | zero => omega
    | succ f =>
      have hnz' : ∀ i < k, chainFrom M (M.mem p) i ≠ 0 := by
        intro i hi
        rw [chainFrom_shift]
        exact hnz (i + 1) (by omega)
      have hz' : chainFrom M (M.mem p) k = 0 := by
        rw [chainFrom_shift]
        exact hz
      have hrec := ih f (M.mem p) (acc ++ frameOut M p) (by omega) hnz' hz'
      simp only [btLoop, if_neg hp]
      rw [hrec]
      have hmaps : (List.range k).map (fun i => frameOut M (chainFrom M (M.mem p) i)) =
          (List.range k).map (fun i => frameOut M (chainFrom M p (i + 1))) := by
        apply List.map_congr_left
        intro i _
        rw [chainFrom_shift]
      rw [hmaps]
      congr 1
      rw [List.range_succ_eq_map, List.map_cons, List.map_map, List.flatten_cons]
      have hc : chainFrom M p 0 = p := rfl
      rw [hc, List.append_assoc]
      rfl

/-- Claim C5: on an acyclic saved-frame chain of depth k from the
current frame reference to the zero sentinel, mon_backtrace emits the
header and then exactly k frame reports in caller-to-root order, each
reading the return address word at offset 4, the five words after it
and the resolved symbol info, returns status 0, and leaves the store
(and, the model being read-only on machine memory, all traversed
memory) unchanged. -/
theorem mon_backtrace_chain (M : Machine) (S : Store) (argv : List CStr)
    (tf : Option Nat) (k fuel : Nat)
    (hfuel : k ≤ fuel)
    (hnz : ∀ i < k, chainFrom M M.ebp i ≠ 0)
    (hz : chainFrom M M.ebp k = 0) :
    mon_backtrace argv tf M S fuel = some (Exec.ok 0 S
      (Out.btHeader ::
        ((List.range k).map (fun i => frameOut M (chainFrom M M.ebp i))).flatten)) := by
  have hb := btLoop_chain M k fuel M.ebp [Out.btHeader] hfuel hnz hz
  simp only [mon_backtrace, hb]
  simp

/-- Witness for C5 on the concrete two-frame chain 8 -> 40 -> 0. -/
theorem mon_backtrace_chain_witness :
    mon_backtrace [] none M2 S0 2 = some (Exec.ok 0 S0
      (Out.btHeader ::
        ((List.range 2).map (fun i => frameOut M2 (chainFrom M2 M2.ebp i))).flatten)) :=
  mon_backtrace_chain M2 S0 [] none 2 2 (Nat.le_refl 2) (by decide) (by decide)

/-- The showmp range loop returns status 0 whenever it returns. -/
theorem showmpLoop_ok (M : Machine) (S : Store) :
    ∀ (fuel b e : Nat) (acc : List Out) (s : Int) (S' : Store) (out : List Out),
    showmpLoop M S fuel b e acc = some (Exec.ok s S' out) → s = 0 := by
  intro fuel
  induction fuel with
  | zero =>
    intro b e acc s S' out h
    simp [showmpLoop] at h
  | succ f ih =>
    intro b e acc s S' out h
    simp only [showmpLoop] at h
    by_cases hble : b ≤ e
    · rw [if_pos hble] at h
      cases hwb : M.walk b with
      | none =>
        simp only [hwb] at h
        exact absurd h (by simp)
      | some loc =>
        simp only [hwb] at h
        exact ih _ _ _ _ _ _ h
    · rw [if_neg hble] at h
      injection h with h1
      injection h1 with hs _ _
      exact hs.symm

/-- showmappings returns status 0 whenever it returns. -/
theorem showmappings_ok (argv : List CStr) (tf : Option Nat) (M : Machine) (S : Store)
    (fuel : Nat) (s : Int) (S' : Store) (out : List Out)
    (h : showmappings argv tf M S fuel = some (Exec.ok s S' out)) : s = 0 := by
  simp only [showmappings] at h
  split at h
  · injection h with h1
    injection h1 with hs _ _
    exact hs.symm
  · exact showmpLoop_ok M S fuel _ _ _ s S' out h

/-- setm returns status 0 whenever it returns. -/
theorem setm_ok (argv : List CStr) (tf : Option Nat) (M : Machine) (S : Store)
    (fuel : Nat) (s : Int) (S' : Store) (out : List Out)
    (h : setm argv tf M S fuel = some (Exec.ok s S' out)) : s = 0 := by
  simp only [setm] at h
  split at h
  · injection h with h1
    injection h1 with hs _ _
    exact hs.symm
  · split at h
    · exact absurd h (by simp)
    · split at h
      · injection h with h1
        injection h1 with hs _ _
        exact hs.symm
      · injection h with h1
        injection h1 with hs _ _
        exact hs.symm

/-- showvm returns status 0 whenever it returns. -/
theorem showvm_ok (argv : List CStr) (tf : Option Nat) (M : Machine) (S : Store)
    (fuel : Nat) (s : Int) (S' : Store) (out : List Out)
    (h : showvm argv tf M S fuel = some (Exec.ok s S' out)) : s = 0 := by
  simp only [showvm] at h
  split at h <;>
    (injection h with h1; injection h1 with hs _ _; exact hs.symm)

/-- mon_help returns status 0. -/
theorem mon_help_ok (argv : List CStr) (tf : Option Nat) (M : Machine) (S : Store)
    (fuel : Nat) (s : Int) (S' : Store) (out : List Out)
    (h : mon_help argv tf M S fuel = some (Exec.ok s S' out)) : s = 0 := by
  simp only [mon_help] at h
  injection h with h1
  injection h1 with hs _ _
  exact hs.symm

/-- mon_kerninfo returns status 0. -/
theorem mon_kerninfo_ok (argv : List CStr) (tf : Option Nat) (M : Machine) (S : Store)
    (fuel : Nat) (s : Int) (S' : Store) (out : List Out)
    (h : mon_kerninfo argv tf M S fuel = some (Exec.ok s S' out)) : s = 0 := by
  simp only [mon_kerninfo] at h
  injection h with h1
  injection h1 with hs _ _
  exact hs.symm

/-- mon_backtrace returns status 0 whenever it returns. -/
theorem mon_backtrace_ok (argv : List CStr) (tf : Option Nat) (M : Machine) (S : Store)
    (fuel : Nat) (s : Int) (S' : Store) (out : List Out)
    (h : mon_backtrace argv tf M S fuel = some (Exec.ok s S' out)) : s = 0 := by
  simp only [mon_backtrace] at h
  split at h
  · injection h with h1
    injection h1 with hs _ _
    exact hs.symm
  · cases h

/-- Every entry of the commands table has a handler returning status 0
whenever it returns. -/
theorem cmd_mem_ok : ∀ c ∈ commands, ∀ (argv : List CStr) (tf : Option Nat)
    (M : Machine) (S : Store) (fuel : Nat) (s : Int) (S' : Store) (out : List Out),
    c.func argv tf M S fuel = some (Exec.ok s S' out) → s = 0 := by
  intro c hc
  simp only [commands, List.mem_cons, List.not_mem_nil, or_false] at hc
  rcases hc with rfl | rfl | rfl | rfl | rfl | rfl <;>
    intro argv tf M S fuel s S' out h
  · exact mon_help_ok argv tf M S fuel s S' out h
  · exact mon_kerninfo_ok argv tf M S fuel s S' out h
  · exact mon_backtrace_ok argv tf M S fuel s S' out h
  · exact showmappings_ok argv tf M S fuel s S' out h
  · exact setm_ok argv tf M S fuel s S' out h
  · exact showvm_ok argv tf M S fuel s S' out h

/-- A table entry found by the lookup loop is an entry of the table. -/
theorem findCmd_mem : ∀ (tbl : List Command) (t : CStr) (c : Command),
    findCmd tbl t = some c → c ∈ tbl := by
  intro tbl
  induction tbl with
  | nil => intro t c h; cases h
  | cons d rest ih =>
    intro t c h
    by_cases hd : d.name = t
    · simp only [findCmd, if_pos hd, Option.some.injEq] at h
      exact h ▸ List.mem_cons_self d rest
    · simp only [findCmd, if_neg hd] at h
      exact List.mem_cons_of_mem d (ih t c h)

/-- runcmd returns status 0 whenever it returns a status. -/
theorem runcmd_ok (tf : Option Nat) (M : Machine) (S : Store) (buf : CStr)
    (fuel : Nat) (s : Int) (S' : Store) (out : List Out)
    (h : runcmd tf M S buf fuel = some (Exec.ok s S' out)) : s = 0 := by
  simp only [runcmd] at h
  split at h
  · injection h with h1
    injection h1 with hs _ _
    exact hs.symm
  · simp only [runcmdTokens] at h
    split at h
    · injection h with h1
      injection h1 with hs _ _
      exact hs.symm
    · split at h
      · next c heq =>
        exact cmd_mem_ok c (findCmd_mem commands _ c heq) _ tf M S fuel s S' out h
      · injection h with h1
        injection h1 with hs _ _
        exact hs.symm

/-- The monitor loop never takes its exit branch: no run over any
input script ends in `exited`. -/
theorem monitorLoop_no_exit (M : Machine) (tf : Option Nat) :
    ∀ (lines : List CStr) (S : Store) (fuel : Nat) (S' : Store) (out : List Out),
    monitorLoop M tf S lines fuel ≠ some (LoopRes.exited S' out) := by
  intro lines
  induction lines with
  | nil =>
    intro S fuel S' out h
    simp [monitorLoop] at h
  | cons buf rest ih =>
    intro S fuel S' out h
    simp only [monitorLoop] at h
    cases hrc : runcmd tf M S buf fuel with
    | none => simp only [hrc] at h; exact Option.noConfusion h
    | some ex =>
      cases ex with
      | ok s S2 out2 =>
        have hs : s = 0 := runcmd_ok tf M S buf fuel s S2 out2 hrc
        subst hs
        simp only [hrc] at h
        rw [if_neg (show ¬ ((0 : Int) < 0) by omega)] at h
        cases hml : monitorLoop M tf S2 rest fuel with
        | none => simp only [hml] at h; exact Option.noConfusion h
        | some r =>
          cases r with
          | ranAll S3 out3 => simp only [hml] at h; exact absurd h (by simp)
          | exited S3 out3 => exact ih S2 fuel S3 out3 hml
          | halted out3 => simp only [hml] at h; exact absurd h (by simp)
      | panicked m o =>
        simp only [hrc] at h
        exact absurd h (by simp)
      | fault o =>
        simp only [hrc] at h
        exact absurd h (by simp)

/-- Claim C8: every handler installed in the commands table returns
status 0 on every path on which it returns at all, so runcmd never
returns a negative status and the monitor loop's exit branch
(status < 0) is unreachable: no run of the loop ends by a command
status. -/
theorem handlers_status_zero :
    (∀ c ∈ commands, ∀ (argv : List CStr) (tf : Option Nat) (M : Machine)
        (S : Store) (fuel : Nat) (s : Int) (S' : Store) (out : List Out),
      c.func argv tf M S fuel = some (Exec.ok s S' out) → s = 0) ∧
    (∀ (tf : Option Nat) (M : Machine) (S : Store) (buf : CStr) (fuel : Nat)
        (s : Int) (S' : Store) (out : List Out),
      runcmd tf M S buf fuel = some (Exec.ok s S' out) → ¬ s < 0) ∧
    (∀ (M : Machine) (tf : Option Nat) (lines : List CStr) (S : Store)
        (fuel : Nat) (S' : Store) (out : List Out),
      monitorLoop M tf S lines fuel ≠ some (LoopRes.exited S' out)) := by
  refine ⟨cmd_mem_ok, ?_, ?_⟩
  · intro tf M S buf fuel s S' out h
    have := runcmd_ok tf M S buf fuel s S' out h
    omega
  · intro M tf lines S fuel S' out
    exact monitorLoop_no_exit M tf lines S fuel S' out

/-- Witness for C8: the help handler as installed returns 0, runcmd on
the help line returns a non-negative status, and a one-line script
does not exit the loop. -/
theorem handlers_status_zero_witness :
    ((0 : Int) = 0) ∧ (¬ ((0 : Int) < 0)) ∧
    monitorLoop M0 none S0 [str ("help")] 1 ≠ some (LoopRes.exited S0 helpOut) :=
  ⟨handlers_status_zero.1 ⟨str ("help"), str ("Display this list of commands"), mon_help⟩
      (List.mem_cons_self _ _) [str ("help")] none M0 S0 1 0 S0 helpOut rfl,
   handlers_status_zero.2.1 none M0 S0 (str ("help")) 1 0 S0 helpOut rfl,
   handlers_status_zero.2.2 M0 none [str ("help")] S0 1 S0 helpOut⟩

/-- With successful lookups and the range end strictly below
2^32 - PGSIZE, the showmp loop finishes within gap + 2 iterations. -/
theorem showmp_term_aux : ∀ (n : Nat) (M : Machine) (S : Store) (b e : Nat)
    (acc : List Out),
    (∀ a, (M.walk a).isSome) → b < U32 → e + PGSIZE < U32 → e - b ≤ n →
    (showmpLoop M S (n + 2) b e acc).isSome = true := by
  have hPG : PGSIZE = 4096 := rfl
  have hU : U32 = 4294967296 := by norm_num [U32]
  intro n
  induction n with
  | zero =>
    intro M S b e acc hw hb he hgap
    have hb4 : b < 4294967296 := by rw [← hU]; exact hb
    have he4 : e + 4096 < 4294967296 := by rw [← hU, ← hPG]; exact he
    by_cases hble : b ≤ e
    · obtain ⟨loc, hloc⟩ := Option.isSome_iff_exists.mp (hw b)
      have hmod : (b + PGSIZE) % U32 = b + PGSIZE := by
        rw [hPG, hU]; exact Nat.mod_eq_of_lt (by omega)
      have hgt : ¬ (b + PGSIZE ≤ e) := by rw [hPG]; omega
      simp only [showmpLoop, if_pos hble, hloc, hmod, if_neg hgt]
      rfl
    · simp only [showmpLoop, if_neg hble]
      rfl
  | succ n ih =>
    intro M S b e acc hw hb he hgap
    have hb4 : b < 4294967296 := by rw [← hU]; exact hb
    have he4 : e + 4096 < 4294967296 := by rw [← hU, ← hPG]; exact he
    by_cases hble : b ≤ e
    · obtain ⟨loc, hloc⟩ := Option.isSome_iff_exists.mp (hw b)
      have hmod : (b + PGSIZE) % U32 = b + PGSIZE := by
        rw [hPG, hU]; exact Nat.mod_eq_of_lt (by omega)
      have hb' : b + PGSIZE < U32 := by rw [hPG, hU]; omega
      have hgap' : e - (b + PGSIZE) ≤ n := by rw [hPG]; omega
      have hrec := ih M S (b + PGSIZE) e
        (acc ++ (if S loc &&& PTE_P ≠ 0 then
            [Out.pageInfo b (S loc &&& PTE_P) (S loc &&& PTE_W) (S loc &&& PTE_U)]
          else [Out.pageNotExist b]))
        hw hb' he hgap'
      simp only [showmpLoop, if_pos hble, hloc, hmod]
      exact hrec
    · simp only [showmpLoop, if_neg hble]
      rfl

/-- With successful lookups, a page-aligned start below 2^32 and a
range end at or above 2^32 - PGSIZE, the showmp loop runs out of any
amount of fuel: the wrapped increment never exceeds the end. -/
theorem showmp_nonterm_aux : ∀ (fuel : Nat) (M : Machine) (S : Store) (b e : Nat)
    (acc : List Out),
    (∀ a, (M.walk a).isSome) → b % PGSIZE = 0 → b < U32 → U32 - PGSIZE ≤ e →
    showmpLoop M S fuel b e acc = none := by
  have hPG : PGSIZE = 4096 := rfl
  have hU : U32 = 4294967296 := by norm_num [U32]
  intro fuel
  induction fuel with
  | zero =>
    intro M S b e acc _ _ _ _
    simp only [showmpLoop]
  | succ f ih =>
    intro M S b e acc hw hal hb he
    have hal4 : b % 4096 = 0 := by rw [← hPG]; exact hal
    have hb4 : b < 4294967296 := by rw [← hU]; exact hb
    have he4 : 4294967296 - 4096 ≤ e := by rw [← hU, ← hPG]; exact he
    have hble : b ≤ e := by omega
    obtain ⟨loc, hloc⟩ := Option.isSome_iff_exists.mp (hw b)
    have hal' : (b + PGSIZE) % U32 % PGSIZE = 0 := by rw [hPG, hU]; omega
    have hb' : (b + PGSIZE) % U32 < U32 := by rw [hU]; exact Nat.mod_lt _ (by norm_num)
    simp only [showmpLoop, if_pos hble, hloc]
    exact ih M S _ e _ hw hal' hb' he

/-- Claim C9 (amended): the showmp range loop terminates for every
begin below 2^32 and end below 2^32 - PGSIZE; and for a page-aligned
begin (with every lookup succeeding), when end is at or above
2^32 - PGSIZE, the 32-bit increment always wraps to a value still at
most end and the loop never terminates.  For a begin that is not
page-aligned the second half fails: the wrapped increment can exceed
end, and the loop exits. -/
theorem showmp_loop_termination :
    (∀ (M : Machine) (S : Store) (b e : Nat) (acc : List Out),
      (∀ a, (M.walk a).isSome) → b < U32 → e + PGSIZE < U32 →
      ∃ fuel r, showmpLoop M S fuel b e acc = some r) ∧
    (∀ (M : Machine) (S : Store) (b e fuel : Nat) (acc : List Out),
      (∀ a, (M.walk a).isSome) → b % PGSIZE = 0 → b < U32 → U32 - PGSIZE ≤ e →
      showmpLoop M S fuel b e acc = none) := by
  constructor
  · intro M S b e acc hw hb he
    obtain ⟨r, hr⟩ := Option.isSome_iff_exists.mp
      (showmp_term_aux (e - b) M S b e acc hw hb he (Nat.le_refl _))
    exact ⟨e - b + 2, r, hr⟩
  · intro M S b e fuel acc hw hal hb he
    exact showmp_nonterm_aux fuel M S b e acc hw hal hb he

/-- Witness for the amended C9: a small concrete range terminates, and
an aligned start against the very top of the address space exhausts
any fuel. -/
theorem showmp_loop_termination_witness :
    (∃ fuel r, showmpLoop M0 S0 fuel 0 8192 [] = some r) ∧
    showmpLoop M0 S0 5 0 4294967295 [] = none :=
  ⟨showmp_loop_termination.1 M0 S0 0 8192 [] (fun _ => rfl)
      (by norm_num [U32]) (by norm_num [U32, PGSIZE]),
   showmp_loop_termination.2 M0 S0 0 4294967295 5 [] (fun _ => rfl)
      (by norm_num [PGSIZE]) (by norm_num [U32]) (by norm_num [U32, PGSIZE])⟩

/-- Counterexample to C9 as stated: with end = 2^32 - PGSIZE (so at or
above it) and the unaligned begin 0xFFFFE001 at most end, the loop
nevertheless terminates, within fuel 3 — the claimed universal
non-termination for end at or above 2^32 - PGSIZE is false. -/
theorem showmp_wrap_terminating_cex :
    U32 - PGSIZE ≤ 4294963200 ∧ 4294959105 ≤ 4294963200 ∧
    (showmpLoop M0 S0 3 4294959105 4294963200 []).isSome = true := by
  refine ⟨by norm_num [U32, PGSIZE], by norm_num, by decide⟩

end Kmonitor
